import Mathlib

/-!
A shallow embedding of `src/declarative_cli.py`: the class
`DeclarativeArgumentParser`, whose constructor walks the AST of a schema
subclass (field declarations, literal initializers, trailing docstrings and
the reserved `__shorts__` mapping) and registers one argparse flag per
surviving option descriptor, and whose `parse_args` returns an
attribute-accessible mapping.

Python values are modelled by `PyVal`; class-body statements by `Stmt`;
the addict `AttrDict` option record by `OptionDesc` (a missing key is
`Option.none`); fallible Python code (attribute errors on AST nodes,
`dict.__ior__` type errors, argparse registration conflicts) returns
`Except String`.  The argparse core is modelled for the token shapes the
repository's contract exercises: every token must match a registered option
string exactly, a `store` action consumes the following token as its value
(rejected when it itself begins with the option marker), and
`store_true` / `store_false` consume nothing.
-/

namespace DeclarativeCli

/-- Python constant and runtime values that occur in a schema class body:
`None`, booleans, integers, strings, dict displays and list displays. -/
inductive PyVal where
  | vnone
  | vbool (b : Bool)
  | vint (n : Int)
  | vstr (s : String)
  | vdict (entries : List (String × PyVal))
  | vlist (elems : List PyVal)

/-- Python `x == False` applied to `option.default` (line 51 of the source):
`False == False` and `0 == False` hold; strings, `None`, dicts and lists
never equal `False`.  A missing `default` key reads as an empty addict
`Dict` (modelled `Option.none`), which also compares unequal to `False`. -/
def pyEqFalseOpt : Option PyVal → Bool
  | some (.vbool b) => !b
  | some (.vint n) => n == 0
  | _ => false

/-- Python f-string conversion of a shortcut alias (line 48).  Scalar
constants are rendered as Python renders them; container values are
abbreviated (no claim exercises a container-valued shortcut alias). -/
def pyStr : PyVal → String
  | .vstr s => s
  | .vbool true => "True"
  | .vbool false => "False"
  | .vint n => toString n
  | .vnone => "None"
  | .vdict _ => "dict"
  | .vlist _ => "list"

/-- Scalar constants are the values an `ast.Constant` node can carry. -/
def isScalar : PyVal → Bool
  | .vdict _ => false
  | .vlist _ => false
  | _ => true

/-- `node.value` on an initializer's AST node (line 77): an `ast.Constant`
has a `.value` attribute; dict and list displays do not, so the attribute
access raises. -/
def constValue : PyVal → Except String PyVal
  | .vdict _ => .error "AttributeError: value"
  | .vlist _ => .error "AttributeError: value"
  | v => .ok v

/-- A field's type tag: either a plain name node (`bool`, `str`, ...), whose
`.id` attribute resolves, or a structured tag such as a subscripted one
(`dict[str, str]`), which has no `.id` attribute (line 72). -/
inductive Annot where
  | name (id : String)
  | subscript
  deriving DecidableEq

/-- The class-body statements the constructor's walk (lines 31-42)
distinguishes: annotated assignments, plain assignments, expression
statements whose value is a string constant (docstrings), and everything
else (methods, `pass`, ...). -/
inductive Stmt where
  | annAssign (target : String) (ann : Annot) (value : Option PyVal)
  | assign (target : String) (value : PyVal)
  | expr (s : String)
  | other

def Stmt.isField : Stmt → Bool
  | .annAssign _ _ _ => true
  | .assign _ _ => true
  | _ => false

def Stmt.fieldName : Stmt → String
  | .annAssign t _ _ => t
  | .assign t _ => t
  | _ => ""

/-- Lookup in an insertion-ordered string-keyed mapping (`AttrDict.get`,
`getattr`, and subscripting the parsed result). -/
def getattr? : List (String × PyVal) → String → Option PyVal
  | [], _ => Option.none
  | p :: ps, n => if p.1 = n then some p.2 else getattr? ps n

/-- Key update with Python dict semantics: an existing key keeps its
position, a new key is appended. -/
def setKey : List (String × PyVal) → String → PyVal → List (String × PyVal)
  | [], k, v => [(k, v)]
  | p :: ps, k, v => if p.1 = k then (k, v) :: ps else p :: setKey ps k v

/-- The per-field `AttrDict` that `_dap_get_option` builds: keys `name`,
`dtype`, `default` and `help`; a key the code never assigned is
`Option.none` (reading it yields an empty `Dict`). -/
structure OptionDesc where
  name : String
  dtype : Option String
  default : Option PyVal
  help : Option String

/-- `_dap_get_option` (lines 58-78): the name comes from the assignment
target, `dtype` from the type tag's `.id` (annotated fields only; raises on
a structured tag), and `default` from the materialized attribute when the
schema object has one, else from the literal initializer when present.
`help` is never assigned here. -/
def dtypeOf : Annot → Except String String
  | .name id => .ok id
  | .subscript => .error "AttributeError: id"

/-- Lines 74-77: the default comes from the materialized attribute when the
schema object has one (`hasattr` / `getattr`), else from the literal
initializer when the declaration carries one. -/
def defaultOf (attrs : List (String × PyVal)) (target : String) (value : Option PyVal) :
    Except String (Option PyVal) :=
  match getattr? attrs target with
  | some v => .ok (some v)
  | Option.none =>
      match value with
      | some lit => (constValue lit).map some
      | Option.none => .ok Option.none

def dapGetOption (attrs : List (String × PyVal)) : Stmt → Except String OptionDesc
  | .assign target value => do
      let d ← defaultOf attrs target (some value)
      .ok ⟨target, Option.none, d, Option.none⟩
  | .annAssign target ann value => do
      let ty ← dtypeOf ann
      let d ← defaultOf attrs target value
      .ok ⟨target, some ty, d, Option.none⟩
  | _ => .error "TypeError: unexpected statement"

/-- Line 35, `shorts |= options[-1].default`: a missing default reads as an
empty `Dict` (no-op), a dict default updates key by key, and any other
value raises `TypeError` as `dict.__ior__` would. -/
def mergeShorts (shorts : List (String × PyVal)) :
    Option PyVal → Except String (List (String × PyVal))
  | Option.none => .ok shorts
  | some (.vdict es) => .ok (es.foldl (fun acc kv => setKey acc kv.1 kv.2) shorts)
  | some _ => .error "TypeError: unsupported operand for ior"

/-- The loop state of lines 29-42: the descriptor list and the merged
shortcut mapping. -/
structure BuildState where
  options : List OptionDesc
  shorts : List (String × PyVal)

/-- Lines 32-35 for a field statement: append its descriptor; when the
field is the reserved `__shorts__`, also merge its default into the
shortcut mapping. -/
def fieldStep (attrs : List (String × PyVal)) (st : BuildState) (s : Stmt) :
    Except String BuildState :=
  dapGetOption attrs s >>= fun o =>
    (if o.name = "__shorts__" then mergeShorts st.shorts o.default
     else Except.ok st.shorts) >>= fun sh =>
      Except.ok ⟨st.options ++ [o], sh⟩

/-- Lines 36-42 for an expression statement: with no descriptors yet, skip;
when the most recent descriptor is the reserved `__shorts__`, drop it;
otherwise set the most recent descriptor's help text. -/
def exprStep (st : BuildState) (d : String) : Except String BuildState :=
  match st.options.getLast? with
  | Option.none => .ok st
  | some lastOpt =>
      if lastOpt.name = "__shorts__" then
        .ok ⟨st.options.dropLast, st.shorts⟩
      else
        .ok ⟨st.options.dropLast ++ [⟨lastOpt.name, lastOpt.dtype, lastOpt.default, some d⟩],
             st.shorts⟩

/-- One iteration of the walk at lines 31-42. -/
def stepStmt (attrs : List (String × PyVal)) (st : BuildState) : Stmt → Except String BuildState
  | .annAssign t a v => fieldStep attrs st (Stmt.annAssign t a v)
  | .assign t v => fieldStep attrs st (Stmt.assign t v)
  | .expr d => exprStep st d
  | .other => .ok st

/-- The whole walk of the schema's class body (lines 28-42). -/
def buildOptions (attrs : List (String × PyVal)) (body : List Stmt) :
    Except String BuildState :=
  body.foldlM (stepStmt attrs) ⟨[], []⟩

/-- The argparse actions the constructor selects among (lines 49-54). -/
inductive Action where
  | store
  | storeTrue
  | storeFalse
  deriving DecidableEq

/-- One `add_argument` registration (line 56): the option strings, the
destination argparse derives from the first long string (field names
contain no `-`, so the destination is the field name), the action, the
default passed (a missing descriptor default is the empty `AttrDict`,
modelled `.vdict []`), and the help text. -/
structure Flag where
  optStrings : List String
  dest : String
  action : Action
  default : PyVal
  help : Option String

/-- `self.prefix_chars`, argparse's default option marker. -/
def pchars : String := "-"

/-- `shorts.get(option.name, [])` followed by normalization to a list
(lines 45-47). -/
def shortsOf (shorts : List (String × PyVal)) (n : String) : List PyVal :=
  match getattr? shorts n with
  | Option.none => []
  | some (.vlist es) => es
  | some v => [v]

/-- Lines 43-56 for one descriptor: build the invocation strings and select
the action (`store_true` for a boolean type whose default equals `False`,
`store_false` for a boolean type otherwise, `store` else). -/
def registerOption (shorts : List (String × PyVal)) (o : OptionDesc) : Flag :=
  let long := pchars ++ pchars ++ o.name
  let shortStrings := (shortsOf shorts o.name).map (fun v => pchars ++ pyStr v)
  let action :=
    if o.dtype = some "bool" then
      if pyEqFalseOpt o.default then Action.storeTrue else Action.storeFalse
    else Action.store
  ⟨long :: shortStrings, o.name, action, o.default.getD (.vdict []), o.help⟩

/-- `add_argument`'s conflict check: registering an already-taken option
string is an `argparse.ArgumentError`. -/
def addFlag (flags : List Flag) (f : Flag) : Except String (List Flag) :=
  if f.optStrings.any (fun s => flags.any (fun g => g.optStrings.contains s)) then
    .error "argparse.ArgumentError: conflicting option strings"
  else .ok (flags ++ [f])

/-- The registration loop of lines 43-56. -/
def registerAll (shorts : List (String × PyVal)) (opts : List OptionDesc) :
    Except String (List Flag) :=
  opts.foldlM (fun acc o => addFlag acc (registerOption shorts o)) []

/-- A schema class: its body statements, the attribute environment `getattr`
consults on the instance (class attributes bound by the class-level
assignments, inherited ones included), and its `__doc__`. -/
structure Schema where
  body : List Stmt
  attrs : List (String × PyVal)
  doc : Option String

/-- Lines 25-26 under Python truthiness: adopt the class docstring as the
description exactly when the docstring is non-`None` and non-empty and the
description argparse holds so far is `None` or empty. -/
def mkDescription (clsDoc : Option String) (explicit : Option String) : Option String :=
  match clsDoc with
  | some d => if d ≠ "" ∧ explicit.getD "" = "" then some d else explicit
  | Option.none => explicit

/-- The observable outcome of `DeclarativeArgumentParser.__init__`. -/
structure ParserModel where
  description : Option String
  flags : List Flag

/-- `DeclarativeArgumentParser.__init__` (lines 22-56): fix the description,
walk the class body, then register every surviving descriptor. -/
def buildParser (schema : Schema) (explicit : Option String) :
    Except String ParserModel := do
  let st ← buildOptions schema.attrs schema.body
  let flags ← registerAll st.shorts st.options
  .ok ⟨mkDescription schema.doc explicit, flags⟩

/-- A token can serve as the value of a `store` option iff argparse does not
take it for an option string, i.e. iff its first character is not the
option marker (negative-number lookalikes do not occur in any claim). -/
def okValue (s : String) : Bool :=
  match s.data, pchars.data with
  | c :: _, m :: _ => !(c == m)
  | _, _ => true

/-- The flag a token invokes: the first registered action among whose option
strings the token occurs. -/
def findFlag (flags : List Flag) (tok : String) : Option Flag :=
  flags.find? (fun f => decide (tok ∈ f.optStrings))

/-- The argparse consumption loop for the token shapes of the contract:
each token must match a registered option string exactly; `store` consumes
the following token as its value; `store_true` / `store_false` consume
nothing; anything else is a usage error. -/
def applyTokens (flags : List Flag) :
    List String → List (String × PyVal) → Except String (List (String × PyVal))
  | [], ns => .ok ns
  | tok :: rest, ns =>
      match findFlag flags tok with
      | Option.none => .error "unrecognized arguments"
      | some f =>
          match f.action with
          | .storeTrue => applyTokens flags rest (setKey ns f.dest (.vbool true))
          | .storeFalse => applyTokens flags rest (setKey ns f.dest (.vbool false))
          | .store =>
              match rest with
              | [] => .error "expected one argument"
              | v :: rest2 =>
                  if okValue v then applyTokens flags rest2 (setKey ns f.dest (.vstr v))
                  else .error "expected one argument"

/-- The namespace argparse seeds before consuming tokens: every action's
default, in registration order. -/
def seedNamespace (flags : List Flag) : List (String × PyVal) :=
  flags.foldl (fun ns f => setKey ns f.dest f.default) []

/-- `parse_args` (lines 80-87): run the engine and return the result as a
key/attribute-accessible mapping. -/
def parseArgs (p : ParserModel) (tokens : List String) :
    Except String (List (String × PyVal)) :=
  applyTokens p.flags tokens (seedNamespace p.flags)

/-- A schema body in the documented shape: each field declaration optionally
followed by exactly one trailing docstring. -/
structure Entry where
  decl : Stmt
  doc : Option String

/-- The statements one entry contributes to the class body. -/
def entryBlock (e : Entry) : List Stmt :=
  e.decl :: (match e.doc with | some d => [Stmt.expr d] | Option.none => [])

/-- The class body of a schema given in entry shape. -/
def toBody (es : List Entry) : List Stmt :=
  (es.map entryBlock).flatten

/-- The number of non-reserved fields a schema in entry shape declares. -/
def countNonReserved (es : List Entry) : Nat :=
  es.countP (fun e => e.decl.fieldName ≠ "__shorts__")

/-- Structural-recursion restatement of the walk over a body in entry
shape; proved equal to `buildOptions` on such bodies below. -/
def walkEntries (attrs : List (String × PyVal)) :
    List (String × PyVal) → List Entry →
    Except String (List OptionDesc × List (String × PyVal))
  | sh, [] => .ok ([], sh)
  | sh, e :: es => do
      let o ← dapGetOption attrs e.decl
      if o.name = "__shorts__" then do
        let sh1 ← mergeShorts sh o.default
        let (ds, sh2) ← walkEntries attrs sh1 es
        .ok ((match e.doc with
              | some _ => ([] : List OptionDesc)
              | Option.none => [o]) ++ ds, sh2)
      else do
        let (ds, sh2) ← walkEntries attrs sh es
        .ok ((match e.doc with
              | some d => (⟨o.name, o.dtype, o.default, some d⟩ : OptionDesc)
              | Option.none => o) :: ds, sh2)


/-! ## Basic lemmas about the embedded operations -/

theorem exceptBind_ok {α β : Type} (a : α) (f : α → Except String β) :
    (Except.ok a >>= f) = f a := rfl

theorem exceptBind_error {α β : Type} (e : String) (f : α → Except String β) :
    ((Except.error e : Except String α) >>= f) = Except.error e := rfl

theorem constValue_scalar (v : PyVal) (h : isScalar v = true) : constValue v = .ok v := by
  cases v <;> simp_all [constValue, isScalar]

theorem dapGetOption_assign (attrs : List (String × PyVal)) (t : String) (v : PyVal) :
    dapGetOption attrs (.assign t v) =
      (defaultOf attrs t (some v)).map
        (fun d => (⟨t, Option.none, d, Option.none⟩ : OptionDesc)) := by
  cases hd : defaultOf attrs t (some v) <;>
    simp [dapGetOption, hd, exceptBind_ok, exceptBind_error, Except.map]

theorem dapGetOption_annAssign (attrs : List (String × PyVal)) (t ty : String)
    (v : Option PyVal) :
    dapGetOption attrs (.annAssign t (.name ty) v) =
      (defaultOf attrs t v).map
        (fun d => (⟨t, some ty, d, Option.none⟩ : OptionDesc)) := by
  cases hd : defaultOf attrs t v <;>
    simp [dapGetOption, dtypeOf, hd, exceptBind_ok, exceptBind_error, Except.map]

theorem dapGetOption_subscript (attrs : List (String × PyVal)) (t : String)
    (v : Option PyVal) :
    dapGetOption attrs (.annAssign t .subscript v) = .error "AttributeError: id" := by
  simp [dapGetOption, dtypeOf, exceptBind_error]

theorem dapGetOption_name (attrs : List (String × PyVal)) (s : Stmt) (o : OptionDesc)
    (h : dapGetOption attrs s = .ok o) : o.name = s.fieldName := by
  cases s with
  | assign t v =>
      rw [dapGetOption_assign] at h
      cases hd : defaultOf attrs t (some v) <;> rw [hd] at h <;> simp [Except.map] at h
      rw [← h]; rfl
  | annAssign t a v =>
      cases a with
      | name ty =>
          rw [dapGetOption_annAssign] at h
          cases hd : defaultOf attrs t v <;> rw [hd] at h <;> simp [Except.map] at h
          rw [← h]; rfl
      | subscript => rw [dapGetOption_subscript] at h; cases h
  | expr d => simp [dapGetOption] at h
  | other => simp [dapGetOption] at h

theorem dapGetOption_help (attrs : List (String × PyVal)) (s : Stmt) (o : OptionDesc)
    (h : dapGetOption attrs s = .ok o) : o.help = Option.none := by
  cases s with
  | assign t v =>
      rw [dapGetOption_assign] at h
      cases hd : defaultOf attrs t (some v) <;> rw [hd] at h <;> simp [Except.map] at h
      rw [← h]
  | annAssign t a v =>
      cases a with
      | name ty =>
          rw [dapGetOption_annAssign] at h
          cases hd : defaultOf attrs t v <;> rw [hd] at h <;> simp [Except.map] at h
          rw [← h]
      | subscript => rw [dapGetOption_subscript] at h; cases h
  | expr d => simp [dapGetOption] at h
  | other => simp [dapGetOption] at h

theorem getattr_setKey (m : List (String × PyVal)) (k : String) (v : PyVal) (d : String) :
    getattr? (setKey m k v) d = if d = k then some v else getattr? m d := by
  induction m with
  | nil =>
      by_cases h : d = k
      · simp [setKey, getattr?, h]
      · simp [setKey, getattr?, h, if_neg (Ne.symm h)]
  | cons p ps ih =>
      by_cases h1 : p.1 = k
      · by_cases h2 : d = k
        · simp [setKey, getattr?, h1, h2]
        · simp only [setKey, if_pos h1, getattr?, if_neg h2]
          rw [if_neg (fun hkd : k = d => h2 hkd.symm),
            if_neg (fun hpd : p.1 = d => h2 (hpd ▸ h1))]
      · by_cases h3 : p.1 = d
        · have h2 : ¬ (d = k) := fun h2 => h1 (h3 ▸ h2)
          simp [setKey, getattr?, h1, h3, h2]
        · simp [setKey, getattr?, h1, h3, ih]
theorem findFlag_mem (flags : List Flag) (tok : String) (f : Flag)
    (h : findFlag flags tok = some f) : f ∈ flags :=
  List.mem_of_find?_eq_some h

theorem findFlag_unique (flags : List Flag) (tok : String) (f : Flag)
    (hf : f ∈ flags) (ht : tok ∈ f.optStrings)
    (hu : ∀ g ∈ flags, tok ∈ g.optStrings → g = f) :
    findFlag flags tok = some f := by
  induction flags with
  | nil => cases hf
  | cons g gs ih =>
      by_cases hg : tok ∈ g.optStrings
      · have hgf : g = f := hu g (List.mem_cons_self g gs) hg
        simp [findFlag, List.find?, hg, hgf, decide_eq_true ht]
      · have hfg : f ≠ g := fun hfg => hg (hfg ▸ ht)
        have hf' : f ∈ gs := by
          cases List.mem_cons.mp hf with
          | inl h => exact absurd h.symm hfg.symm
          | inr h => exact h
        have := ih hf' (fun g' hg' ht' => hu g' (List.mem_cons_of_mem g hg') ht')
        simpa [findFlag, List.find?, hg] using this

theorem applyTokens_nil (flags : List Flag) (ns : List (String × PyVal)) :
    applyTokens flags [] ns = .ok ns := rfl

theorem applyTokens_storeTrue (flags : List Flag) (tok : String) (f : Flag)
    (rest : List String) (ns : List (String × PyVal))
    (hfind : findFlag flags tok = some f) (hact : f.action = .storeTrue) :
    applyTokens flags (tok :: rest) ns =
      applyTokens flags rest (setKey ns f.dest (.vbool true)) := by
  simp [applyTokens, hfind, hact]

theorem applyTokens_storeFalse (flags : List Flag) (tok : String) (f : Flag)
    (rest : List String) (ns : List (String × PyVal))
    (hfind : findFlag flags tok = some f) (hact : f.action = .storeFalse) :
    applyTokens flags (tok :: rest) ns =
      applyTokens flags rest (setKey ns f.dest (.vbool false)) := by
  simp [applyTokens, hfind, hact]

theorem applyTokens_store (flags : List Flag) (tok v : String) (f : Flag)
    (rest : List String) (ns : List (String × PyVal))
    (hfind : findFlag flags tok = some f) (hact : f.action = .store)
    (hv : okValue v = true) :
    applyTokens flags (tok :: v :: rest) ns =
      applyTokens flags rest (setKey ns f.dest (.vstr v)) := by
  simp [applyTokens, hfind, hact, hv]

theorem applyTokens_none (flags : List Flag) (tok : String)
    (rest : List String) (ns : List (String × PyVal))
    (hfind : findFlag flags tok = Option.none) :
    applyTokens flags (tok :: rest) ns = .error "unrecognized arguments" := by
  simp [applyTokens, hfind]

theorem applyTokens_store_nil (flags : List Flag) (tok : String) (f : Flag)
    (ns : List (String × PyVal))
    (hfind : findFlag flags tok = some f) (hact : f.action = .store) :
    applyTokens flags [tok] ns = .error "expected one argument" := by
  simp [applyTokens, hfind, hact]

theorem applyTokens_store_badval (flags : List Flag) (tok v : String) (f : Flag)
    (rest : List String) (ns : List (String × PyVal))
    (hfind : findFlag flags tok = some f) (hact : f.action = .store)
    (hv : okValue v = false) :
    applyTokens flags (tok :: v :: rest) ns = .error "expected one argument" := by
  simp [applyTokens, hfind, hact, hv]

/-- Two tokens that invoke the same flag are interchangeable as the head of
a token sequence: the whole parse result is identical. -/
theorem applyTokens_head_congr (flags : List Flag) (t1 t2 : String) (f : Flag)
    (rest : List String) (ns : List (String × PyVal))
    (h1 : findFlag flags t1 = some f) (h2 : findFlag flags t2 = some f) :
    applyTokens flags (t1 :: rest) ns = applyTokens flags (t2 :: rest) ns := by
  simp [applyTokens, h1, h2]

/-- A run of the consumption loop never touches the destination of a flag
that no token invokes, provided no other flag shares that destination
(induction on a bound of the token count, since `store` consumes two
tokens at once). -/
theorem applyTokens_unmatched_bounded (flags : List Flag) (f : Flag)
    (hdest : ∀ g ∈ flags, g.dest = f.dest → g = f) :
    ∀ (n : Nat) (tokens : List String), tokens.length ≤ n →
      ∀ (ns r : List (String × PyVal)),
      (∀ tok ∈ tokens, findFlag flags tok ≠ some f) →
      applyTokens flags tokens ns = .ok r →
      getattr? r f.dest = getattr? ns f.dest := by
  intro n
  induction n with
  | zero =>
      intro tokens hlen ns r _ h
      have : tokens = [] := List.eq_nil_of_length_eq_zero (Nat.le_zero.mp hlen)
      subst this; cases h; rfl
  | succ n ih =>
      intro tokens hlen ns r hno h
      cases tokens with
      | nil => cases h; rfl
      | cons tok rest =>
          cases hfind : findFlag flags tok with
          | none => rw [applyTokens_none flags tok rest ns hfind] at h; cases h
          | some g =>
              have hgf : g ≠ f := fun hgf =>
                hno tok (List.mem_cons_self tok rest) (hgf ▸ hfind)
              have hgmem : g ∈ flags := findFlag_mem flags tok g hfind
              have hgd : ¬ (f.dest = g.dest) := fun hd => hgf (hdest g hgmem hd.symm)
              have hrest : ∀ t ∈ rest, findFlag flags t ≠ some f :=
                fun t ht => hno t (List.mem_cons_of_mem tok ht)
              have hlenr : rest.length ≤ n := Nat.le_of_succ_le_succ hlen
              cases hact : g.action with
              | storeTrue =>
                  rw [applyTokens_storeTrue flags tok g rest ns hfind hact] at h
                  rw [ih rest hlenr _ r hrest h, getattr_setKey, if_neg hgd]
              | storeFalse =>
                  rw [applyTokens_storeFalse flags tok g rest ns hfind hact] at h
                  rw [ih rest hlenr _ r hrest h, getattr_setKey, if_neg hgd]
              | store =>
                  cases rest with
                  | nil =>
                      rw [applyTokens_store_nil flags tok g ns hfind hact] at h
                      cases h
                  | cons v rest2 =>
                      cases hv : okValue v with
                      | true =>
                          rw [applyTokens_store flags tok v g rest2 ns hfind hact hv] at h
                          have hrest2 : ∀ t ∈ rest2, findFlag flags t ≠ some f :=
                            fun t ht => hrest t (List.mem_cons_of_mem v ht)
                          have hlen2 : rest2.length ≤ n :=
                            Nat.le_of_succ_le (by simpa using hlenr)
                          rw [ih rest2 hlen2 _ r hrest2 h, getattr_setKey, if_neg hgd]
                      | false =>
                          rw [applyTokens_store_badval flags tok v g rest2 ns
                            hfind hact hv] at h
                          cases h

theorem applyTokens_unmatched (flags : List Flag) (f : Flag)
    (hdest : ∀ g ∈ flags, g.dest = f.dest → g = f)
    (tokens : List String) (ns r : List (String × PyVal))
    (hno : ∀ tok ∈ tokens, findFlag flags tok ≠ some f)
    (h : applyTokens flags tokens ns = .ok r) :
    getattr? r f.dest = getattr? ns f.dest :=
  applyTokens_unmatched_bounded flags f hdest tokens.length tokens (Nat.le_refl _)
    ns r hno h

/-- In the seeded namespace, a flag's destination holds its default,
provided no other flag writes the same destination with another value. -/
theorem getattr_foldl_setKey_stable (d : String) (w : PyVal) :
    ∀ (fs : List Flag) (ns : List (String × PyVal)),
      (∀ g ∈ fs, g.dest = d → g.default = w) →
      getattr? ns d = some w →
      getattr? (fs.foldl (fun ns f => setKey ns f.dest f.default) ns) d = some w := by
  intro fs
  induction fs with
  | nil => intro ns _ h; exact h
  | cons g gs ih =>
      intro ns hall h
      rw [List.foldl_cons]
      apply ih _ (fun g' hg' hd' => hall g' (List.mem_cons_of_mem g hg') hd')
      rw [getattr_setKey]
      by_cases hd : d = g.dest
      · rw [if_pos hd, hall g (List.mem_cons_self g gs) hd.symm]
      · rw [if_neg hd]; exact h

theorem getattr_seedNamespace (flags : List Flag) (f : Flag) (hf : f ∈ flags)
    (hdest : ∀ g ∈ flags, g.dest = f.dest → g = f) :
    getattr? (seedNamespace flags) f.dest = some f.default := by
  unfold seedNamespace
  suffices h : ∀ (fs : List Flag) (ns : List (String × PyVal)),
      f ∈ fs → (∀ g ∈ fs, g.dest = f.dest → g = f) →
      getattr? (fs.foldl (fun ns f => setKey ns f.dest f.default) ns) f.dest =
        some f.default by
    exact h flags [] hf hdest
  intro fs
  induction fs with
  | nil => intro ns h; cases h
  | cons g gs ih =>
      intro ns hmem hall
      rw [List.foldl_cons]
      by_cases hg : g = f
      · subst hg
        exact getattr_foldl_setKey_stable g.dest g.default gs _
          (fun g' hg' hd' => by
            rw [hall g' (List.mem_cons_of_mem g hg') hd'])
          (by rw [getattr_setKey, if_pos rfl])
      · have hf' : f ∈ gs := by
          cases List.mem_cons.mp hmem with
          | inl h => exact absurd h.symm hg
          | inr h => exact h
        exact ih _ hf' (fun g' hg' hd' => hall g' (List.mem_cons_of_mem g hg') hd')

/-- A successful run of the registration loop appends exactly the image of
`registerOption` over the descriptors. -/
theorem registerAll_ok_eq (sh : List (String × PyVal)) :
    ∀ (opts : List OptionDesc) (acc flags : List Flag),
      opts.foldlM (fun acc o => addFlag acc (registerOption sh o)) acc = .ok flags →
      flags = acc ++ opts.map (registerOption sh) := by
  intro opts
  induction opts with
  | nil => intro acc flags h; cases h; simp
  | cons o os ih =>
      intro acc flags h
      rw [List.foldlM_cons] at h
      unfold addFlag at h
      by_cases hc : ((registerOption sh o).optStrings.any
          (fun s => acc.any (fun g => g.optStrings.contains s))) = true
      · rw [if_pos hc] at h; rw [exceptBind_error] at h; cases h
      · rw [if_neg hc] at h; rw [exceptBind_ok] at h
        rw [ih _ _ h]; simp

theorem buildParser_parts (schema : Schema) (explicit : Option String)
    (st : BuildState) (P : ParserModel)
    (hb : buildOptions schema.attrs schema.body = .ok st)
    (hp : buildParser schema explicit = .ok P) :
    P.flags = st.options.map (registerOption st.shorts) ∧
    P.description = mkDescription schema.doc explicit := by
  unfold buildParser at hp
  rw [hb, exceptBind_ok] at hp
  cases hr : registerAll st.shorts st.options with
  | error e => rw [hr, exceptBind_error] at hp; cases hp
  | ok fl =>
      rw [hr, exceptBind_ok] at hp
      cases hp
      exact ⟨by simpa using registerAll_ok_eq st.shorts st.options [] fl hr, rfl⟩
/-! ## The walk over a body in entry shape -/

theorem exceptBind_pure {α : Type} (x : Except String α) : (x >>= Except.ok) = x := by
  cases x <;> rfl

theorem exceptMap_ok {α β : Type} (a : α) (f : α → β) :
    Except.map f (Except.ok a : Except String α) = Except.ok (f a) := rfl

theorem exceptMap_error {α β : Type} (m : String) (f : α → β) :
    Except.map f (Except.error m : Except String α) = (Except.error m : Except String β) := rfl

theorem toBody_cons (e : Entry) (es : List Entry) :
    toBody (e :: es) = entryBlock e ++ toBody es := by
  simp [toBody]

theorem stepStmt_isField (attrs : List (String × PyVal)) (st : BuildState) (s : Stmt)
    (h : s.isField = true) : stepStmt attrs st s = fieldStep attrs st s := by
  cases s <;> simp_all [stepStmt, Stmt.isField]

theorem stepStmt_expr (attrs : List (String × PyVal)) (st : BuildState) (d : String) :
    stepStmt attrs st (Stmt.expr d) = exprStep st d := rfl

theorem fieldStep_def (attrs : List (String × PyVal)) (st : BuildState) (s : Stmt) :
    fieldStep attrs st s =
      dapGetOption attrs s >>= (fun o =>
        (if o.name = "__shorts__" then mergeShorts st.shorts o.default
         else Except.ok st.shorts) >>= (fun sh =>
          Except.ok (⟨st.options ++ [o], sh⟩ : BuildState))) := rfl

theorem exprStep_concat_shorts (opts : List OptionDesc) (o : OptionDesc)
    (sh : List (String × PyVal)) (d : String) (hn : o.name = "__shorts__") :
    exprStep ⟨opts ++ [o], sh⟩ d = .ok ⟨opts, sh⟩ := by
  simp [exprStep, List.getLast?_concat, hn, List.dropLast_concat]

theorem exprStep_concat_nonshorts (opts : List OptionDesc) (o : OptionDesc)
    (sh : List (String × PyVal)) (d : String) (hn : ¬ (o.name = "__shorts__")) :
    exprStep ⟨opts ++ [o], sh⟩ d =
      .ok ⟨opts ++ [⟨o.name, o.dtype, o.default, some d⟩], sh⟩ := by
  simp [exprStep, List.getLast?_concat, hn, List.dropLast_concat]

theorem walkEntries_cons_error (attrs sh : List (String × PyVal)) (e : Entry)
    (es : List Entry) (m : String)
    (ho : dapGetOption attrs e.decl = .error m) :
    walkEntries attrs sh (e :: es) = .error m := by
  simp [walkEntries, ho, exceptBind_error]

theorem walkEntries_cons_shorts_mergeError (attrs sh : List (String × PyVal))
    (e : Entry) (es : List Entry) (o : OptionDesc) (m : String)
    (ho : dapGetOption attrs e.decl = .ok o) (hn : o.name = "__shorts__")
    (hm : mergeShorts sh o.default = .error m) :
    walkEntries attrs sh (e :: es) = .error m := by
  simp [walkEntries, ho, hn, hm, exceptBind_ok, exceptBind_error]

theorem walkEntries_cons_shorts (attrs sh sh1 : List (String × PyVal))
    (e : Entry) (es : List Entry) (o : OptionDesc)
    (ho : dapGetOption attrs e.decl = .ok o) (hn : o.name = "__shorts__")
    (hm : mergeShorts sh o.default = .ok sh1) :
    walkEntries attrs sh (e :: es) =
      (walkEntries attrs sh1 es).map (fun p =>
        ((match e.doc with
          | some _ => ([] : List OptionDesc)
          | Option.none => [o]) ++ p.1, p.2)) := by
  cases hw : walkEntries attrs sh1 es with
  | error m => simp [walkEntries, ho, hn, hm, hw, exceptBind_ok, exceptBind_error, Except.map]
  | ok p =>
      cases p with
      | mk ds sh2 => simp [walkEntries, ho, hn, hm, hw, exceptBind_ok, Except.map]

theorem walkEntries_cons_nonshorts (attrs sh : List (String × PyVal))
    (e : Entry) (es : List Entry) (o : OptionDesc)
    (ho : dapGetOption attrs e.decl = .ok o) (hn : ¬ (o.name = "__shorts__")) :
    walkEntries attrs sh (e :: es) =
      (walkEntries attrs sh es).map (fun p =>
        ((match e.doc with
          | some d => (⟨o.name, o.dtype, o.default, some d⟩ : OptionDesc)
          | Option.none => o) :: p.1, p.2)) := by
  cases hw : walkEntries attrs sh es with
  | error m => simp [walkEntries, ho, hn, hw, exceptBind_ok, exceptBind_error, Except.map]
  | ok p =>
      cases p with
      | mk ds sh2 => simp [walkEntries, ho, hn, hw, exceptBind_ok, Except.map]

/-- The source's statement walk, run on a body in entry shape, computes
exactly `walkEntries`. -/
theorem foldlM_toBody (attrs : List (String × PyVal)) :
    ∀ (es : List Entry), (∀ e ∈ es, e.decl.isField = true) →
    ∀ (st : BuildState),
      (toBody es).foldlM (stepStmt attrs) st =
        (walkEntries attrs st.shorts es).map
          (fun p => (⟨st.options ++ p.1, p.2⟩ : BuildState)) := by
  intro es
  induction es with
  | nil =>
      intro _ st
      simp only [toBody, List.map_nil, List.flatten_nil, List.foldlM_nil, walkEntries,
        exceptMap_ok, List.append_nil]
      rfl
  | cons e es ih =>
      intro hf st
      have hfe : e.decl.isField = true := hf e (List.mem_cons_self e es)
      have hfes : ∀ e' ∈ es, e'.decl.isField = true :=
        fun e' h' => hf e' (List.mem_cons_of_mem e h')
      have hblock : entryBlock e = e.decl :: (match e.doc with
        | some d => [Stmt.expr d] | Option.none => []) := rfl
      rw [toBody_cons, List.foldlM_append]
      cases ho : dapGetOption attrs e.decl with
      | error m =>
          rw [walkEntries_cons_error attrs st.shorts e es m ho]
          simp only [hblock, List.foldlM_cons, stepStmt_isField attrs st e.decl hfe,
            fieldStep_def, ho, exceptBind_error, exceptMap_error]
      | ok o =>
          by_cases hn : o.name = "__shorts__"
          · cases hm : mergeShorts st.shorts o.default with
            | error m =>
                rw [walkEntries_cons_shorts_mergeError attrs st.shorts e es o m ho hn hm]
                simp only [hblock, List.foldlM_cons, stepStmt_isField attrs st e.decl hfe,
                  fieldStep_def, ho, if_pos hn, hm, exceptBind_ok, exceptBind_error,
                  exceptMap_error]
            | ok sh1 =>
                rw [walkEntries_cons_shorts attrs st.shorts sh1 e es o ho hn hm]
                cases hdoc : e.doc with
                | none =>
                    simp only [hblock, hdoc, List.foldlM_cons, List.foldlM_nil,
                      stepStmt_isField attrs st e.decl hfe, fieldStep_def, ho, if_pos hn,
                      hm, exceptBind_ok, pure_bind]
                    simp only [ih hfes]
                    cases hw : walkEntries attrs sh1 es with
                    | error m => simp [hw, Except.map]
                    | ok p => simp [hw, Except.map, List.append_assoc]
                | some d =>
                    simp only [hblock, hdoc, List.foldlM_cons, List.foldlM_nil,
                      stepStmt_isField attrs st e.decl hfe, fieldStep_def, ho, if_pos hn,
                      hm, exceptBind_ok, pure_bind, stepStmt_expr,
                      exprStep_concat_shorts st.options o sh1 d hn]
                    simp only [ih hfes]
                    cases hw : walkEntries attrs sh1 es with
                    | error m => simp [hw, Except.map]
                    | ok p => simp [hw, Except.map]
          · rw [walkEntries_cons_nonshorts attrs st.shorts e es o ho hn]
            cases hdoc : e.doc with
            | none =>
                simp only [hblock, hdoc, List.foldlM_cons, List.foldlM_nil,
                  stepStmt_isField attrs st e.decl hfe, fieldStep_def, ho, if_neg hn,
                  exceptBind_ok, pure_bind]
                simp only [ih hfes]
                cases hw : walkEntries attrs st.shorts es with
                | error m => simp [hw, Except.map]
                | ok p => simp [hw, Except.map, List.append_assoc]
            | some d =>
                simp only [hblock, hdoc, List.foldlM_cons, List.foldlM_nil,
                  stepStmt_isField attrs st e.decl hfe, fieldStep_def, ho, if_neg hn,
                  exceptBind_ok, pure_bind, stepStmt_expr,
                  exprStep_concat_nonshorts st.options o st.shorts d hn]
                simp only [ih hfes]
                cases hw : walkEntries attrs st.shorts es with
                | error m => simp [hw, Except.map]
                | ok p => simp [hw, Except.map, List.append_assoc]

/-- On a body in entry shape, a successful construction walk is exactly a
successful `walkEntries` run. -/
theorem walk_of_buildOptions (attrs : List (String × PyVal)) (es : List Entry)
    (st : BuildState) (hf : ∀ e ∈ es, e.decl.isField = true)
    (hb : buildOptions attrs (toBody es) = .ok st) :
    walkEntries attrs [] es = .ok (st.options, st.shorts) := by
  unfold buildOptions at hb
  rw [foldlM_toBody attrs es hf ⟨[], []⟩] at hb
  cases hw : walkEntries attrs [] es with
  | error m => rw [hw] at hb; cases hb
  | ok p =>
      rw [hw] at hb
      simp [Except.map] at hb
      cases p with
      | mk ds sh => cases hb; rfl
/-- When every reserved entry carries a trailing docstring, the walk keeps
exactly the non-reserved descriptors. -/
theorem walkEntries_length (attrs : List (String × PyVal)) :
    ∀ (es : List Entry) (sh : List (String × PyVal)) (ds : List OptionDesc)
      (sh2 : List (String × PyVal)),
      (∀ e ∈ es, e.decl.fieldName = "__shorts__" → e.doc ≠ Option.none) →
      walkEntries attrs sh es = .ok (ds, sh2) →
      ds.length = countNonReserved es := by
  intro es
  induction es with
  | nil =>
      intro sh ds sh2 _ h
      cases h
      rfl
  | cons e es ih =>
      intro sh ds sh2 hdoc h
      have hdoc' : ∀ e' ∈ es, e'.decl.fieldName = "__shorts__" → e'.doc ≠ Option.none :=
        fun e' h' => hdoc e' (List.mem_cons_of_mem e h')
      cases ho : dapGetOption attrs e.decl with
      | error m => rw [walkEntries_cons_error attrs sh e es m ho] at h; cases h
      | ok o =>
          have hname : o.name = e.decl.fieldName := dapGetOption_name attrs e.decl o ho
          by_cases hn : o.name = "__shorts__"
          · cases hm : mergeShorts sh o.default with
            | error m =>
                rw [walkEntries_cons_shorts_mergeError attrs sh e es o m ho hn hm] at h
                cases h
            | ok sh1 =>
                rw [walkEntries_cons_shorts attrs sh sh1 e es o ho hn hm] at h
                cases hw : walkEntries attrs sh1 es with
                | error m => rw [hw] at h; cases h
                | ok p =>
                    rw [hw, exceptMap_ok] at h
                    cases p with
                    | mk ds' sh2' =>
                        have hfn : e.decl.fieldName = "__shorts__" := hname ▸ hn
                        cases hde : e.doc with
                        | none => exact absurd hde (hdoc e (List.mem_cons_self e es) hfn)
                        | some d =>
                            rw [hde] at h
                            cases h
                            unfold countNonReserved
                            rw [List.countP_cons]
                            simp [hfn, countNonReserved, ih sh1 ds' sh2' hdoc' hw]
          · rw [walkEntries_cons_nonshorts attrs sh e es o ho hn] at h
            cases hw : walkEntries attrs sh es with
            | error m => rw [hw] at h; cases h
            | ok p =>
                rw [hw, exceptMap_ok] at h
                cases p with
                | mk ds' sh2' =>
                    cases h
                    have hfn : ¬ (e.decl.fieldName = "__shorts__") := hname ▸ hn
                    unfold countNonReserved
                    rw [List.countP_cons]
                    simp [hfn, countNonReserved, ih sh ds' sh2' hdoc' hw]

/-- When every reserved entry carries a trailing docstring, the surviving
descriptors correspond one-to-one, in order, to the non-reserved entries:
same name, and help text exactly the entry's own trailing docstring. -/
theorem walkEntries_forall₂ (attrs : List (String × PyVal)) :
    ∀ (es : List Entry) (sh : List (String × PyVal)) (ds : List OptionDesc)
      (sh2 : List (String × PyVal)),
      (∀ e ∈ es, e.decl.fieldName = "__shorts__" → e.doc ≠ Option.none) →
      walkEntries attrs sh es = .ok (ds, sh2) →
      List.Forall₂ (fun (e : Entry) (d : OptionDesc) =>
          d.name = e.decl.fieldName ∧ d.help = e.doc)
        (es.filter (fun e => e.decl.fieldName ≠ "__shorts__")) ds := by
  intro es
  induction es with
  | nil =>
      intro sh ds sh2 _ h
      cases h
      simp
  | cons e es ih =>
      intro sh ds sh2 hdoc h
      have hdoc' : ∀ e' ∈ es, e'.decl.fieldName = "__shorts__" → e'.doc ≠ Option.none :=
        fun e' h' => hdoc e' (List.mem_cons_of_mem e h')
      cases ho : dapGetOption attrs e.decl with
      | error m => rw [walkEntries_cons_error attrs sh e es m ho] at h; cases h
      | ok o =>
          have hname : o.name = e.decl.fieldName := dapGetOption_name attrs e.decl o ho
          have hhelp : o.help = Option.none := dapGetOption_help attrs e.decl o ho
          by_cases hn : o.name = "__shorts__"
          · cases hm : mergeShorts sh o.default with
            | error m =>
                rw [walkEntries_cons_shorts_mergeError attrs sh e es o m ho hn hm] at h
                cases h
            | ok sh1 =>
                rw [walkEntries_cons_shorts attrs sh sh1 e es o ho hn hm] at h
                cases hw : walkEntries attrs sh1 es with
                | error m => rw [hw] at h; cases h
                | ok p =>
                    rw [hw, exceptMap_ok] at h
                    cases p with
                    | mk ds' sh2' =>
                        have hfn : e.decl.fieldName = "__shorts__" := hname ▸ hn
                        cases hde : e.doc with
                        | none => exact absurd hde (hdoc e (List.mem_cons_self e es) hfn)
                        | some d =>
                            rw [hde] at h
                            cases h
                            rw [List.filter_cons,
                              if_neg (by simp [hfn] : ¬ ((decide
                                (e.decl.fieldName ≠ "__shorts__")) = true))]
                            simpa using ih sh1 ds' sh2' hdoc' hw
          · rw [walkEntries_cons_nonshorts attrs sh e es o ho hn] at h
            cases hw : walkEntries attrs sh es with
            | error m => rw [hw] at h; cases h
            | ok p =>
                rw [hw, exceptMap_ok] at h
                cases p with
                | mk ds' sh2' =>
                    cases h
                    have hfn : ¬ (e.decl.fieldName = "__shorts__") := hname ▸ hn
                    rw [List.filter_cons,
                      if_pos (by simpa using hfn : (decide
                        (e.decl.fieldName ≠ "__shorts__")) = true)]
                    refine List.Forall₂.cons ?_ (ih sh ds' sh2' hdoc' hw)
                    cases hde : e.doc with
                    | none => simp [hde, hname, hhelp]
                    | some d => simp [hde, hname]

/-- A statement that fails for every state makes the whole walk fail. -/
theorem foldlM_error_of_mem (attrs : List (String × PyVal)) (bad : Stmt)
    (hbad : ∀ st : BuildState, ∃ m, stepStmt attrs st bad = .error m) :
    ∀ (body : List Stmt) (st : BuildState), bad ∈ body →
      ∃ m, body.foldlM (stepStmt attrs) st = .error m := by
  intro body
  induction body with
  | nil => intro st h; cases h
  | cons s rest ih =>
      intro st hmem
      rw [List.foldlM_cons]
      cases List.mem_cons.mp hmem with
      | inl hs =>
          obtain ⟨m, hm⟩ := hbad st
          rw [hs] at hm
          exact ⟨m, by rw [hm, exceptBind_error]⟩
      | inr hs =>
          cases hstep : stepStmt attrs st s with
          | error m => exact ⟨m, by rw [exceptBind_error]⟩
          | ok st1 =>
              obtain ⟨m, hm⟩ := ih st1 hs
              exact ⟨m, by rw [exceptBind_ok, hm]⟩
/-! ## Claims -/

/-- C7: for every field, the default recorded in its option descriptor is
the already-materialized attribute value on the schema object when one
exists, and otherwise the literal initializer from the declaration when one
is present; the attribute value takes priority whenever both exist.  Stated
for annotated declarations (with a resolvable type tag) and for plain
assignments. -/
theorem C7_default_priority (attrs : List (String × PyVal)) (n ty : String)
    (lit : Option PyVal) (v : PyVal)
    (hlit : ∀ w, lit = some w → isScalar w = true) (hv : isScalar v = true) :
    (dapGetOption attrs (Stmt.annAssign n (Annot.name ty) lit)).map OptionDesc.default
      = Except.ok (match getattr? attrs n with
        | some w => some w
        | Option.none => lit) ∧
    (dapGetOption attrs (Stmt.assign n v)).map OptionDesc.default
      = Except.ok (match getattr? attrs n with
        | some w => some w
        | Option.none => some v) := by
  constructor
  · rw [dapGetOption_annAssign]
    cases hg : getattr? attrs n with
    | some w => simp [defaultOf, hg, Except.map]
    | none =>
        cases lit with
        | none => simp [defaultOf, hg, Except.map]
        | some w =>
            simp [defaultOf, hg, constValue_scalar w (hlit w rfl), Except.map]
  · rw [dapGetOption_assign]
    cases hg : getattr? attrs n with
    | some w => simp [defaultOf, hg, Except.map]
    | none => simp [defaultOf, hg, constValue_scalar v hv, Except.map]

theorem C7_default_priority_witness :
    (dapGetOption [("x", PyVal.vint 5)]
        (Stmt.annAssign "x" (Annot.name "int") (some (PyVal.vint 7)))).map
      OptionDesc.default = Except.ok (some (PyVal.vint 5)) ∧
    (dapGetOption [("x", PyVal.vint 5)] (Stmt.assign "x" (PyVal.vint 7))).map
      OptionDesc.default = Except.ok (some (PyVal.vint 5)) :=
  C7_default_priority [("x", PyVal.vint 5)] "x" "int" (some (PyVal.vint 7))
    (PyVal.vint 7) (fun w h => by cases h; rfl) rfl

/-- C8: a schema whose field declaration carries a type tag the
introspector cannot resolve to a simple name (a subscripted tag) makes
construction fail with an unhandled fault: no parser object is produced. -/
theorem C8_unresolvable_tag_faults (schema : Schema) (explicit : Option String)
    (n : String) (v : Option PyVal)
    (hmem : Stmt.annAssign n Annot.subscript v ∈ schema.body) :
    ∃ m, buildParser schema explicit = .error m := by
  have hbad : ∀ st : BuildState,
      ∃ m, stepStmt schema.attrs st (Stmt.annAssign n Annot.subscript v) = .error m :=
    fun st => ⟨"AttributeError: id", by
      rw [show stepStmt schema.attrs st (Stmt.annAssign n Annot.subscript v) =
        fieldStep schema.attrs st (Stmt.annAssign n Annot.subscript v) from rfl,
        fieldStep_def, dapGetOption_subscript, exceptBind_error]⟩
  obtain ⟨m, hm⟩ :=
    foldlM_error_of_mem schema.attrs (Stmt.annAssign n Annot.subscript v) hbad
      schema.body ⟨[], []⟩ hmem
  refine ⟨m, ?_⟩
  unfold buildParser buildOptions
  rw [hm, exceptBind_error]

theorem C8_unresolvable_tag_faults_witness :
    ∃ m, buildParser ⟨[Stmt.annAssign "x" Annot.subscript Option.none], [],
      Option.none⟩ Option.none = .error m :=
  C8_unresolvable_tag_faults
    ⟨[Stmt.annAssign "x" Annot.subscript Option.none], [], Option.none⟩
    Option.none "x" Option.none (List.mem_singleton.mpr rfl)

/-- C9: if the schema class provides a (non-empty) top-level documentation
string and no explicit description was supplied at construction, the
parser's description equals that documentation string; a supplied non-empty
explicit description is left unchanged. -/
theorem C9_description_adoption (schema : Schema) (explicit : Option String)
    (P : ParserModel) (hp : buildParser schema explicit = .ok P) :
    (∀ d, schema.doc = some d → d ≠ "" → explicit = Option.none →
      P.description = some d) ∧
    (∀ e, explicit = some e → e ≠ "" → P.description = some e) := by
  cases hb : buildOptions schema.attrs schema.body with
  | error m => unfold buildParser at hp; rw [hb, exceptBind_error] at hp; cases hp
  | ok st =>
      have hdesc := (buildParser_parts schema explicit st P hb hp).2
      constructor
      · intro d hd hne hexp
        rw [hdesc, hd, hexp]
        simp only [mkDescription]
        rw [if_pos ⟨hne, rfl⟩]
      · intro e he hne
        rw [hdesc, he]
        cases hd : schema.doc with
        | none => rfl
        | some d =>
            simp only [mkDescription]
            rw [if_neg]
            intro hcond
            exact hne (by simpa using hcond.2)

theorem C9_description_adoption_witness :
    (⟨some "Doc", []⟩ : ParserModel).description = some "Doc" ∧
    (⟨some "Expl", []⟩ : ParserModel).description = some "Expl" :=
  ⟨(C9_description_adoption ⟨[], [], some "Doc"⟩ Option.none ⟨some "Doc", []⟩ rfl).1
      "Doc" rfl (by decide) rfl,
   (C9_description_adoption ⟨[], [], some "Doc"⟩ (some "Expl") ⟨some "Expl", []⟩ rfl).2
      "Expl" rfl (by decide)⟩
theorem registerOption_dest (sh : List (String × PyVal)) (o : OptionDesc) :
    (registerOption sh o).dest = o.name := rfl

theorem registerOption_default (sh : List (String × PyVal)) (o : OptionDesc) :
    (registerOption sh o).default = o.default.getD (.vdict []) := rfl

theorem registerOption_long_mem (sh : List (String × PyVal)) (o : OptionDesc) :
    (pchars ++ pchars ++ o.name) ∈ (registerOption sh o).optStrings := by
  show (pchars ++ pchars ++ o.name) ∈
    (pchars ++ pchars ++ o.name) :: (shortsOf sh o.name).map (fun v => pchars ++ pyStr v)
  exact List.mem_cons_self _ _

theorem registerOption_short_mem (sh : List (String × PyVal)) (o : OptionDesc)
    (s : String) (hs : PyVal.vstr s ∈ shortsOf sh o.name) :
    (pchars ++ s) ∈ (registerOption sh o).optStrings := by
  show (pchars ++ s) ∈
    (pchars ++ pchars ++ o.name) :: (shortsOf sh o.name).map (fun v => pchars ++ pyStr v)
  exact List.mem_cons_of_mem _ (List.mem_map_of_mem _ hs)

theorem registerOption_action_bool_false (sh : List (String × PyVal)) (o : OptionDesc)
    (hdt : o.dtype = some "bool") (hdef : pyEqFalseOpt o.default = true) :
    (registerOption sh o).action = Action.storeTrue := by
  simp [registerOption, hdt, hdef]

theorem registerOption_action_bool_nonfalse (sh : List (String × PyVal)) (o : OptionDesc)
    (hdt : o.dtype = some "bool") (hdef : pyEqFalseOpt o.default = false) :
    (registerOption sh o).action = Action.storeFalse := by
  simp [registerOption, hdt, hdef]

theorem registerOption_action_nonbool (sh : List (String × PyVal)) (o : OptionDesc)
    (hdt : ¬ (o.dtype = some "bool")) :
    (registerOption sh o).action = Action.store := by
  simp [registerOption, hdt]

theorem flags_mem_of_options_mem (schema : Schema) (explicit : Option String)
    (st : BuildState) (P : ParserModel) (o : OptionDesc)
    (hb : buildOptions schema.attrs schema.body = .ok st)
    (hp : buildParser schema explicit = .ok P) (ho : o ∈ st.options) :
    registerOption st.shorts o ∈ P.flags := by
  rw [(buildParser_parts schema explicit st P hb hp).1]
  exact List.mem_map_of_mem _ ho

/-- C2: for every field declared with boolean type whose recorded default is
`false`, a parse that never invokes the field's flag yields `false` for it
and the invocation `--name` yields `true`; for a recorded default of
`true` the polarity is inverted.  The flag-resolution side conditions say
the long option string and the destination belong to this field alone. -/
theorem C2_bool_flag_polarity (schema : Schema) (explicit : Option String)
    (st : BuildState) (P : ParserModel) (o : OptionDesc)
    (hb : buildOptions schema.attrs schema.body = .ok st)
    (hp : buildParser schema explicit = .ok P)
    (ho : o ∈ st.options)
    (hdt : o.dtype = some "bool")
    (huniq : ∀ g ∈ P.flags, (pchars ++ pchars ++ o.name) ∈ g.optStrings →
      g = registerOption st.shorts o)
    (hdest : ∀ g ∈ P.flags, g.dest = o.name → g = registerOption st.shorts o) :
    (o.default = some (PyVal.vbool false) →
      (∀ (ts : List String) (r : List (String × PyVal)),
        (∀ tok ∈ ts, findFlag P.flags tok ≠ some (registerOption st.shorts o)) →
        parseArgs P ts = .ok r → getattr? r o.name = some (PyVal.vbool false)) ∧
      (∃ r, parseArgs P [pchars ++ pchars ++ o.name] = .ok r ∧
        getattr? r o.name = some (PyVal.vbool true))) ∧
    (o.default = some (PyVal.vbool true) →
      (∀ (ts : List String) (r : List (String × PyVal)),
        (∀ tok ∈ ts, findFlag P.flags tok ≠ some (registerOption st.shorts o)) →
        parseArgs P ts = .ok r → getattr? r o.name = some (PyVal.vbool true)) ∧
      (∃ r, parseArgs P [pchars ++ pchars ++ o.name] = .ok r ∧
        getattr? r o.name = some (PyVal.vbool false))) := by
  have hfmem : registerOption st.shorts o ∈ P.flags :=
    flags_mem_of_options_mem schema explicit st P o hb hp ho
  have hfind : findFlag P.flags (pchars ++ pchars ++ o.name) =
      some (registerOption st.shorts o) :=
    findFlag_unique P.flags _ _ hfmem (registerOption_long_mem st.shorts o) huniq
  constructor
  · intro hdef
    have hact : (registerOption st.shorts o).action = Action.storeTrue :=
      registerOption_action_bool_false st.shorts o hdt (by rw [hdef]; rfl)
    constructor
    · intro ts r hno hr
      have hpres := applyTokens_unmatched P.flags (registerOption st.shorts o) hdest ts
        (seedNamespace P.flags) r hno hr
      have hseed := getattr_seedNamespace P.flags (registerOption st.shorts o) hfmem hdest
      rw [registerOption_dest] at hpres hseed
      rw [hpres, hseed, registerOption_default, hdef]
      rfl
    · refine ⟨setKey (seedNamespace P.flags) o.name (PyVal.vbool true), ?_, ?_⟩
      · unfold parseArgs
        rw [applyTokens_storeTrue P.flags _ _ [] _ hfind hact, applyTokens_nil,
          registerOption_dest]
      · rw [getattr_setKey, if_pos rfl]
  · intro hdef
    have hact : (registerOption st.shorts o).action = Action.storeFalse :=
      registerOption_action_bool_nonfalse st.shorts o hdt (by rw [hdef]; rfl)
    constructor
    · intro ts r hno hr
      have hpres := applyTokens_unmatched P.flags (registerOption st.shorts o) hdest ts
        (seedNamespace P.flags) r hno hr
      have hseed := getattr_seedNamespace P.flags (registerOption st.shorts o) hfmem hdest
      rw [registerOption_dest] at hpres hseed
      rw [hpres, hseed, registerOption_default, hdef]
      rfl
    · refine ⟨setKey (seedNamespace P.flags) o.name (PyVal.vbool false), ?_, ?_⟩
      · unfold parseArgs
        rw [applyTokens_storeFalse P.flags _ _ [] _ hfind hact, applyTokens_nil,
          registerOption_dest]
      · rw [getattr_setKey, if_pos rfl]

/-- C4: for every non-boolean field whose recorded default is `D`, a parse
that never invokes the field's flag yields `D` for it, and the invocation
`--name V` (for a value token `V`) yields `V`, stored verbatim as a string
with no conversion. -/
theorem C4_store_verbatim (schema : Schema) (explicit : Option String)
    (st : BuildState) (P : ParserModel) (o : OptionDesc) (D : PyVal) (V : String)
    (hb : buildOptions schema.attrs schema.body = .ok st)
    (hp : buildParser schema explicit = .ok P)
    (ho : o ∈ st.options)
    (hdt : ¬ (o.dtype = some "bool"))
    (hdef : o.default = some D)
    (hV : okValue V = true)
    (huniq : ∀ g ∈ P.flags, (pchars ++ pchars ++ o.name) ∈ g.optStrings →
      g = registerOption st.shorts o)
    (hdest : ∀ g ∈ P.flags, g.dest = o.name → g = registerOption st.shorts o) :
    (∀ (ts : List String) (r : List (String × PyVal)),
      (∀ tok ∈ ts, findFlag P.flags tok ≠ some (registerOption st.shorts o)) →
      parseArgs P ts = .ok r → getattr? r o.name = some D) ∧
    (∃ r, parseArgs P [pchars ++ pchars ++ o.name, V] = .ok r ∧
      getattr? r o.name = some (PyVal.vstr V)) := by
  have hfmem : registerOption st.shorts o ∈ P.flags :=
    flags_mem_of_options_mem schema explicit st P o hb hp ho
  have hfind : findFlag P.flags (pchars ++ pchars ++ o.name) =
      some (registerOption st.shorts o) :=
    findFlag_unique P.flags _ _ hfmem (registerOption_long_mem st.shorts o) huniq
  have hact : (registerOption st.shorts o).action = Action.store :=
    registerOption_action_nonbool st.shorts o hdt
  constructor
  · intro ts r hno hr
    have hpres := applyTokens_unmatched P.flags (registerOption st.shorts o) hdest ts
      (seedNamespace P.flags) r hno hr
    have hseed := getattr_seedNamespace P.flags (registerOption st.shorts o) hfmem hdest
    rw [registerOption_dest] at hpres hseed
    rw [hpres, hseed, registerOption_default, hdef]
    rfl
  · refine ⟨setKey (seedNamespace P.flags) o.name (PyVal.vstr V), ?_, ?_⟩
    · unfold parseArgs
      rw [applyTokens_store P.flags _ V _ [] _ hfind hact hV, applyTokens_nil,
        registerOption_dest]
    · rw [getattr_setKey, if_pos rfl]

/-- C5: for every field with a declared shortcut alias (single string or
list), parsing `-s V` and parsing `--name V` produce identical results, and
both resolve to the single destination named after the field; when the
field's action stores a value, that value is `V`. -/
theorem C5_short_long_equivalence (schema : Schema) (explicit : Option String)
    (st : BuildState) (P : ParserModel) (o : OptionDesc) (s V : String)
    (hb : buildOptions schema.attrs schema.body = .ok st)
    (hp : buildParser schema explicit = .ok P)
    (ho : o ∈ st.options)
    (hs : PyVal.vstr s ∈ shortsOf st.shorts o.name)
    (hV : okValue V = true)
    (huniqLong : ∀ g ∈ P.flags, (pchars ++ pchars ++ o.name) ∈ g.optStrings →
      g = registerOption st.shorts o)
    (huniqShort : ∀ g ∈ P.flags, (pchars ++ s) ∈ g.optStrings →
      g = registerOption st.shorts o) :
    parseArgs P [pchars ++ s, V] = parseArgs P [pchars ++ pchars ++ o.name, V] ∧
    (registerOption st.shorts o).dest = o.name ∧
    ((registerOption st.shorts o).action = Action.store →
      ∃ r, parseArgs P [pchars ++ pchars ++ o.name, V] = .ok r ∧
        getattr? r o.name = some (PyVal.vstr V)) := by
  have hfmem : registerOption st.shorts o ∈ P.flags :=
    flags_mem_of_options_mem schema explicit st P o hb hp ho
  have hfindL : findFlag P.flags (pchars ++ pchars ++ o.name) =
      some (registerOption st.shorts o) :=
    findFlag_unique P.flags _ _ hfmem (registerOption_long_mem st.shorts o) huniqLong
  have hfindS : findFlag P.flags (pchars ++ s) = some (registerOption st.shorts o) :=
    findFlag_unique P.flags _ _ hfmem (registerOption_short_mem st.shorts o s hs)
      huniqShort
  refine ⟨?_, rfl, ?_⟩
  · unfold parseArgs
    exact applyTokens_head_congr P.flags _ _ _ [V] _ hfindS hfindL
  · intro hact
    refine ⟨setKey (seedNamespace P.flags) o.name (PyVal.vstr V), ?_, ?_⟩
    · unfold parseArgs
      rw [applyTokens_store P.flags _ V _ [] _ hfindL hact hV, applyTokens_nil,
        registerOption_dest]
    · rw [getattr_setKey, if_pos rfl]

/-- C10: a field annotated with boolean type that has neither a
materialized attribute value nor a literal initializer gets no recorded
default, so its registration takes the inverted `store_false` action (the
missing-default sentinel compares unequal to `False`), and invoking the
flag yields `false`. -/
theorem C10_missing_default_bool (schema : Schema) (explicit : Option String)
    (st : BuildState) (P : ParserModel) (n : String) (o : OptionDesc)
    (hd : dapGetOption schema.attrs (Stmt.annAssign n (Annot.name "bool") Option.none)
      = .ok o)
    (hg : getattr? schema.attrs n = Option.none)
    (hb : buildOptions schema.attrs schema.body = .ok st)
    (hp : buildParser schema explicit = .ok P)
    (ho : o ∈ st.options)
    (huniq : ∀ g ∈ P.flags, (pchars ++ pchars ++ n) ∈ g.optStrings →
      g = registerOption st.shorts o) :
    (registerOption st.shorts o).action = Action.storeFalse ∧
    registerOption st.shorts o ∈ P.flags ∧
    (∃ r, parseArgs P [pchars ++ pchars ++ n] = .ok r ∧
      getattr? r n = some (PyVal.vbool false)) := by
  have hoe : o = ⟨n, some "bool", Option.none, Option.none⟩ := by
    rw [dapGetOption_annAssign] at hd
    simp [defaultOf, hg, Except.map] at hd
    exact hd.symm
  subst hoe
  have hfmem : registerOption st.shorts
      (⟨n, some "bool", Option.none, Option.none⟩ : OptionDesc) ∈ P.flags :=
    flags_mem_of_options_mem schema explicit st P _ hb hp ho
  have hact : (registerOption st.shorts
      (⟨n, some "bool", Option.none, Option.none⟩ : OptionDesc)).action =
      Action.storeFalse :=
    registerOption_action_bool_nonfalse st.shorts _ rfl rfl
  have hfind := findFlag_unique P.flags (pchars ++ pchars ++ n) _ hfmem
    (registerOption_long_mem st.shorts ⟨n, some "bool", Option.none, Option.none⟩) huniq
  refine ⟨hact, hfmem, setKey (seedNamespace P.flags) n (PyVal.vbool false), ?_, ?_⟩
  · unfold parseArgs
    rw [applyTokens_storeFalse P.flags _ _ [] _ hfind hact, applyTokens_nil,
      registerOption_dest]
  · rw [getattr_setKey, if_pos rfl]
def schemaC2 : Schema :=
  ⟨[Stmt.annAssign "verbose" (Annot.name "bool") (some (PyVal.vbool false))],
   [("verbose", PyVal.vbool false)], Option.none⟩

def optC2 : OptionDesc := ⟨"verbose", some "bool", some (PyVal.vbool false), Option.none⟩

def stC2 : BuildState := ⟨[optC2], []⟩

def parserC2 : ParserModel :=
  ⟨Option.none,
   [⟨["--verbose"], "verbose", Action.storeTrue, PyVal.vbool false, Option.none⟩]⟩

theorem C2_bool_flag_polarity_witness :
    ∃ r, parseArgs parserC2 ["--verbose"] = .ok r ∧
      getattr? r "verbose" = some (PyVal.vbool true) :=
  ((C2_bool_flag_polarity schemaC2 Option.none stC2 parserC2 optC2 rfl rfl
      (List.mem_singleton.mpr rfl) rfl
      (fun g hg _ => (List.mem_singleton.mp hg).trans rfl)
      (fun g hg _ => (List.mem_singleton.mp hg).trans rfl)).1 rfl).2

def schemaC4 : Schema :=
  ⟨[Stmt.annAssign "example" (Annot.name "str") (some (PyVal.vstr ""))],
   [("example", PyVal.vstr "")], Option.none⟩

def optC4 : OptionDesc := ⟨"example", some "str", some (PyVal.vstr ""), Option.none⟩

def stC4 : BuildState := ⟨[optC4], []⟩

def parserC4 : ParserModel :=
  ⟨Option.none, [⟨["--example"], "example", Action.store, PyVal.vstr "", Option.none⟩]⟩

theorem C4_store_verbatim_witness :
    getattr? [("example", PyVal.vstr "")] "example" = some (PyVal.vstr "") ∧
    (∃ r, parseArgs parserC4 ["--example", "hi"] = .ok r ∧
      getattr? r "example" = some (PyVal.vstr "hi")) := by
  have h := C4_store_verbatim schemaC4 Option.none stC4 parserC4 optC4
    (PyVal.vstr "") "hi" rfl rfl (List.mem_singleton.mpr rfl) (by decide) rfl (by decide)
    (fun g hg _ => (List.mem_singleton.mp hg).trans rfl)
    (fun g hg _ => (List.mem_singleton.mp hg).trans rfl)
  exact ⟨h.1 [] [("example", PyVal.vstr "")]
    (fun tok ht => absurd ht (List.not_mem_nil tok)) rfl, h.2⟩

def schemaC5 : Schema :=
  ⟨[Stmt.annAssign "example" (Annot.name "str") (some (PyVal.vstr "")),
    Stmt.expr "Example option",
    Stmt.assign "__shorts__" (PyVal.vdict [("example", PyVal.vstr "e")]),
    Stmt.expr "Shortcuts of options"],
   [("example", PyVal.vstr ""),
    ("__shorts__", PyVal.vdict [("example", PyVal.vstr "e")])],
   some "Float module releasing helper"⟩

def optC5 : OptionDesc := ⟨"example", some "str", some (PyVal.vstr ""), some "Example option"⟩

def stC5 : BuildState := ⟨[optC5], [("example", PyVal.vstr "e")]⟩

def parserC5 : ParserModel :=
  ⟨some "Float module releasing helper",
   [⟨["--example", "-e"], "example", Action.store, PyVal.vstr "", some "Example option"⟩]⟩

theorem C5_short_long_equivalence_witness :
    parseArgs parserC5 ["-e", "hi"] = parseArgs parserC5 ["--example", "hi"] ∧
    (∃ r, parseArgs parserC5 ["--example", "hi"] = .ok r ∧
      getattr? r "example" = some (PyVal.vstr "hi")) := by
  have h := C5_short_long_equivalence schemaC5 Option.none stC5 parserC5 optC5 "e" "hi"
    rfl rfl (List.mem_singleton.mpr rfl)
    (show PyVal.vstr "e" ∈ [PyVal.vstr "e"] from List.mem_singleton.mpr rfl) (by decide)
    (fun g hg _ => (List.mem_singleton.mp hg).trans rfl)
    (fun g hg _ => (List.mem_singleton.mp hg).trans rfl)
  exact ⟨h.1, h.2.2 rfl⟩

def schemaC10 : Schema :=
  ⟨[Stmt.annAssign "flagx" (Annot.name "bool") Option.none], [], Option.none⟩

def optC10 : OptionDesc := ⟨"flagx", some "bool", Option.none, Option.none⟩

def stC10 : BuildState := ⟨[optC10], []⟩

def parserC10 : ParserModel :=
  ⟨Option.none, [⟨["--flagx"], "flagx", Action.storeFalse, PyVal.vdict [], Option.none⟩]⟩

theorem C10_missing_default_bool_witness :
    (registerOption stC10.shorts optC10).action = Action.storeFalse ∧
    (∃ r, parseArgs parserC10 ["--flagx"] = .ok r ∧
      getattr? r "flagx" = some (PyVal.vbool false)) := by
  have h := C10_missing_default_bool schemaC10 Option.none stC10 parserC10 "flagx" optC10
    rfl rfl rfl rfl (List.mem_singleton.mpr rfl)
    (fun g hg _ => (List.mem_singleton.mp hg).trans rfl)
  exact ⟨h.1, h.2.2⟩
/-- C1 counterexample: a schema declaring only the reserved `__shorts__`
field with no trailing docstring has zero non-reserved fields, yet
construction registers one flag — `--__shorts__` itself (the descriptor is
only dropped at a docstring statement). -/
theorem C1_shorts_without_doc_counterexample :
    (buildParser ⟨toBody [⟨Stmt.assign "__shorts__" (PyVal.vdict []), Option.none⟩],
        [("__shorts__", PyVal.vdict [])], Option.none⟩ Option.none).map
      (fun p => p.flags.map Flag.optStrings) = Except.ok [["--__shorts__"]] ∧
    countNonReserved [⟨Stmt.assign "__shorts__" (PyVal.vdict []), Option.none⟩] = 0 :=
  ⟨rfl, rfl⟩

/-- C1 (amended): in a schema of field declarations each optionally
followed by one docstring, where every `__shorts__` declaration does carry
a trailing docstring, construction registers exactly one flag per
non-reserved field — N flags for N non-reserved fields.  (Without the
trailing docstring, `__shorts__` itself is registered as a flag, per the
counterexample.) -/
theorem C1_flag_count (attrs : List (String × PyVal)) (doc explicit : Option String)
    (es : List Entry) (P : ParserModel)
    (hf : ∀ e ∈ es, e.decl.isField = true)
    (hdocs : ∀ e ∈ es, e.decl.fieldName = "__shorts__" → e.doc ≠ Option.none)
    (hp : buildParser ⟨toBody es, attrs, doc⟩ explicit = .ok P) :
    P.flags.length = countNonReserved es := by
  cases hb : buildOptions attrs (toBody es) with
  | error m => unfold buildParser at hp; rw [hb, exceptBind_error] at hp; cases hp
  | ok st =>
      have hflags := (buildParser_parts ⟨toBody es, attrs, doc⟩ explicit st P hb hp).1
      have hw := walk_of_buildOptions attrs es st hf hb
      have hlen := walkEntries_length attrs es [] st.options st.shorts hdocs hw
      rw [hflags, List.length_map, hlen]

def entriesC1 : List Entry :=
  [⟨Stmt.assign "__shorts__" (PyVal.vdict [("x", PyVal.vstr "s")]), some "sdoc"⟩,
   ⟨Stmt.annAssign "x" (Annot.name "str") (some (PyVal.vstr "")), some "xdoc"⟩]

def attrsC1 : List (String × PyVal) :=
  [("__shorts__", PyVal.vdict [("x", PyVal.vstr "s")]), ("x", PyVal.vstr "")]

def parserC1 : ParserModel :=
  ⟨Option.none, [⟨["--x", "-s"], "x", Action.store, PyVal.vstr "", some "xdoc"⟩]⟩

theorem C1_flag_count_witness :
    parserC1.flags.length = countNonReserved entriesC1 :=
  C1_flag_count attrsC1 Option.none Option.none entriesC1 parserC1
    (by intro e he
        rcases List.mem_cons.mp he with h | h
        · rw [h]; rfl
        · rw [List.mem_singleton.mp h]; rfl)
    (by intro e he
        rcases List.mem_cons.mp he with h | h
        · rw [h]; intro _; simp
        · rw [List.mem_singleton.mp h]; intro hx; exact absurd hx (by decide))
    rfl

/-- C3: when every `__shorts__` declaration carries a trailing docstring,
that docstring is discarded — the registered flags correspond one-to-one,
in order, to the non-reserved fields, each with destination named after its
own field and help text exactly its own trailing docstring (or absent). -/
theorem C3_shorts_doc_discarded (attrs : List (String × PyVal))
    (doc explicit : Option String) (es : List Entry) (P : ParserModel)
    (hf : ∀ e ∈ es, e.decl.isField = true)
    (hdocs : ∀ e ∈ es, e.decl.fieldName = "__shorts__" → e.doc ≠ Option.none)
    (hp : buildParser ⟨toBody es, attrs, doc⟩ explicit = .ok P) :
    List.Forall₂ (fun (e : Entry) (f : Flag) =>
        f.dest = e.decl.fieldName ∧ f.help = e.doc)
      (es.filter (fun e => e.decl.fieldName ≠ "__shorts__")) P.flags := by
  cases hb : buildOptions attrs (toBody es) with
  | error m => unfold buildParser at hp; rw [hb, exceptBind_error] at hp; cases hp
  | ok st =>
      have hflags := (buildParser_parts ⟨toBody es, attrs, doc⟩ explicit st P hb hp).1
      have hw := walk_of_buildOptions attrs es st hf hb
      have hfa := walkEntries_forall₂ attrs es [] st.options st.shorts hdocs hw
      rw [hflags, List.forall₂_map_right_iff]
      exact hfa.imp (fun a b h => ⟨h.1, h.2⟩)

def entriesC3 : List Entry :=
  [⟨Stmt.annAssign "alpha" (Annot.name "str") (some (PyVal.vstr "a")), some "alpha doc"⟩,
   ⟨Stmt.assign "__shorts__" (PyVal.vdict []), some "shorts doc"⟩,
   ⟨Stmt.assign "beta" (PyVal.vstr "b"), Option.none⟩]

def attrsC3 : List (String × PyVal) :=
  [("alpha", PyVal.vstr "a"), ("__shorts__", PyVal.vdict []), ("beta", PyVal.vstr "b")]

def parserC3 : ParserModel :=
  ⟨Option.none,
   [⟨["--alpha"], "alpha", Action.store, PyVal.vstr "a", some "alpha doc"⟩,
    ⟨["--beta"], "beta", Action.store, PyVal.vstr "b", Option.none⟩]⟩

theorem C3_shorts_doc_discarded_witness :
    List.Forall₂ (fun (e : Entry) (f : Flag) =>
        f.dest = e.decl.fieldName ∧ f.help = e.doc)
      (entriesC3.filter (fun e => e.decl.fieldName ≠ "__shorts__")) parserC3.flags :=
  C3_shorts_doc_discarded attrsC3 Option.none Option.none entriesC3 parserC3
    (by intro e he
        rcases List.mem_cons.mp he with h | h
        · rw [h]; rfl
        · rcases List.mem_cons.mp h with h2 | h2
          · rw [h2]; rfl
          · rw [List.mem_singleton.mp h2]; rfl)
    (by intro e he
        rcases List.mem_cons.mp he with h | h
        · rw [h]; intro hx; exact absurd hx (by decide)
        · rcases List.mem_cons.mp h with h2 | h2
          · rw [h2]; intro _; simp
          · rw [List.mem_singleton.mp h2]; intro hx; exact absurd hx (by decide))
    rfl

/-- C6 counterexample: the field `x` is not immediately followed by a
documentation string (an unrelated statement intervenes), yet the later
docstring statement still attaches to it as help text — attachment is to
the most recent field, not to the literal next statement only. -/
theorem C6_positional_attachment_counterexample :
    (buildParser ⟨[Stmt.assign "x" (PyVal.vstr ""), Stmt.other, Stmt.expr "late doc"],
        [("x", PyVal.vstr "")], Option.none⟩ Option.none).map
      (fun p => p.flags.map Flag.help) = Except.ok [some "late doc"] ∧
    (Except.ok [some "late doc"] : Except String (List (Option String))) ≠
      Except.ok [Option.none] :=
  ⟨rfl, by simp⟩

/-- C6 (amended): a docstring statement attaches to the most recently
declared field, so a field can gain help text even from a docstring that is
not its literal next statement; in a schema shaped as non-reserved field
declarations each optionally followed by exactly one docstring, that
docstring is the field's help text, and a field without one has none. -/
theorem C6_help_attachment (attrs : List (String × PyVal))
    (doc explicit : Option String) (es : List Entry) (P : ParserModel)
    (hf : ∀ e ∈ es, e.decl.isField = true)
    (hns : ∀ e ∈ es, ¬ (e.decl.fieldName = "__shorts__"))
    (hp : buildParser ⟨toBody es, attrs, doc⟩ explicit = .ok P) :
    List.Forall₂ (fun (e : Entry) (f : Flag) =>
        f.dest = e.decl.fieldName ∧ f.help = e.doc)
      es P.flags := by
  cases hb : buildOptions attrs (toBody es) with
  | error m => unfold buildParser at hp; rw [hb, exceptBind_error] at hp; cases hp
  | ok st =>
      have hflags := (buildParser_parts ⟨toBody es, attrs, doc⟩ explicit st P hb hp).1
      have hdocs : ∀ e ∈ es, e.decl.fieldName = "__shorts__" → e.doc ≠ Option.none :=
        fun e he hsh => absurd hsh (hns e he)
      have hw := walk_of_buildOptions attrs es st hf hb
      have hfa := walkEntries_forall₂ attrs es [] st.options st.shorts hdocs hw
      have hfilter : es.filter (fun e => e.decl.fieldName ≠ "__shorts__") = es :=
        List.filter_eq_self.mpr (fun e he => by simpa using hns e he)
      rw [hfilter] at hfa
      rw [hflags, List.forall₂_map_right_iff]
      exact hfa.imp (fun a b h => ⟨h.1, h.2⟩)

def entriesC6 : List Entry :=
  [⟨Stmt.annAssign "a" (Annot.name "str") (some (PyVal.vstr "1")), some "doc a"⟩,
   ⟨Stmt.assign "b" (PyVal.vstr "2"), Option.none⟩]

def attrsC6 : List (String × PyVal) := [("a", PyVal.vstr "1"), ("b", PyVal.vstr "2")]

def parserC6 : ParserModel :=
  ⟨Option.none,
   [⟨["--a"], "a", Action.store, PyVal.vstr "1", some "doc a"⟩,
    ⟨["--b"], "b", Action.store, PyVal.vstr "2", Option.none⟩]⟩

theorem C6_help_attachment_witness :
    List.Forall₂ (fun (e : Entry) (f : Flag) =>
        f.dest = e.decl.fieldName ∧ f.help = e.doc)
      entriesC6 parserC6.flags :=
  C6_help_attachment attrsC6 Option.none Option.none entriesC6 parserC6
    (by intro e he
        rcases List.mem_cons.mp he with h | h
        · rw [h]; rfl
        · rw [List.mem_singleton.mp h]; rfl)
    (by intro e he
        rcases List.mem_cons.mp he with h | h
        · rw [h]; exact (by decide)
        · rw [List.mem_singleton.mp h]; exact (by decide))
    rfl

end DeclarativeCli
